import Mathlib

/-!
Verification of the nusmods personalization layer: the theme picker
(`app/scripts/common/themes/themePicker.js`) and the keyboard-shortcut
component (`website/src/views/components/KeyboardShortcuts.tsx`),
shallowly embedded in Lean.
-/

namespace NUSMods

/-- Association-list update with JS object / DOM attribute semantics:
overwrite the first entry with the given key in place, or append a fresh
entry at the end. Models `obj[k] = v`, `$el.attr(k, v)` and
`localforage.setItem(k, v)`. -/
def assocSet {α β : Type} [DecidableEq α] (k : α) (v : β) : List (α × β) → List (α × β)
  | [] => [(k, v)]
  | (k', v') :: rest => if k' = k then (k, v) :: rest else (k', v') :: assocSet k v rest

/-- Association-list read: the value of the first entry with the given key.
Models `obj[k]` / `$el.attr(k)`, with `none` for JS `undefined`. -/
def assocGet {α β : Type} [DecidableEq α] (k : α) : List (α × β) → Option β
  | [] => none
  | (k', v') :: rest => if k' = k then some v' else assocGet k rest

theorem assocGet_assocSet_self {α β : Type} [DecidableEq α] (k : α) (v : β)
    (l : List (α × β)) : assocGet k (assocSet k v l) = some v := by
  induction l with
  | nil => simp [assocSet, assocGet]
  | cons p rest ih =>
    obtain ⟨k', v'⟩ := p
    by_cases h : k' = k
    · simp [assocSet, assocGet, h]
    · simp [assocSet, assocGet, h, ih]

theorem assocGet_assocSet_ne {α β : Type} [DecidableEq α] {k k' : α} (v : β)
    (l : List (α × β)) (h : k' ≠ k) : assocGet k' (assocSet k v l) = assocGet k' l := by
  have hne : k ≠ k' := Ne.symm h
  induction l with
  | nil => simp [assocSet, assocGet, hne]
  | cons p rest ih =>
    obtain ⟨k₀, v₀⟩ := p
    by_cases h₀ : k₀ = k
    · subst h₀
      simp [assocSet, assocGet, hne]
    · by_cases h₁ : k₀ = k'
      · simp [assocSet, assocGet, h₀, h₁, h]
      · simp [assocSet, assocGet, h₀, h₁, ih]

namespace ThemePicker

/-- One entry of `themeOptions.json`; `selectNextTheme`/`selectRandomTheme`
read the `value` field (`_.pluck(themeOptions, 'value')`). -/
structure ThemeOption : Type where
  value : String
deriving DecidableEq, Repr

/-- The browser-visible state `themePicker.js` reads and writes: `data-*`
attributes and class list on `<body>`, the `localforage` store, the
`#theme-options` select and the mode radio group (each `none` when the
element is absent from the page), and the `#mode` stylesheet `href`. -/
structure BodyState : Type where
  attrs : List (String × String)
  classes : List String
  stored : List (String × String)
  themeSelect : Option String
  modeRadios : Option String
  modeHref : String
deriving DecidableEq, Repr

/-- Read `$('body').attr('data-' + prop)`; `none` is JS `undefined`. -/
def getAttr (st : BodyState) (prop : String) : Option String :=
  assocGet prop st.attrs

/-- JS string coercion used by `'prop-' + $body.attr(...)` when the
attribute is `undefined`. -/
def attrOrUndefined (attrs : List (String × String)) (prop : String) : String :=
  (assocGet prop attrs).getD "undefined"

/-- `updateAppearance(property, value)`: persist to localforage, set the
`data-*` attribute, then `removeClass()` and re-add the `mode-*` and
`theme-*` classes from the (just updated) attributes. -/
def updateAppearance (st : BodyState) (property value : String) : BodyState :=
  let stored := assocSet property value st.stored
  let attrs := assocSet property value st.attrs
  let classes := ["mode", "theme"].map (fun prop => prop ++ "-" ++ attrOrUndefined attrs prop)
  { st with stored := stored, attrs := attrs, classes := classes }

/-- `applyTheme(newTheme)`: set the `#theme-options` select value when the
element exists, then `updateAppearance('theme', newTheme)`. There is no
catalog-membership check in the source. -/
def applyTheme (st : BodyState) (newTheme : String) : BodyState :=
  let st := { st with themeSelect := st.themeSelect.map (fun _ => newTheme) }
  updateAppearance st "theme" newTheme

/-- `toggleMode()`: flip `data-mode` between `'default'` and `'slate'`
(anything other than `'default'` flips to `'default'`), reflect into the
mode radio group and the `#mode` stylesheet link, then
`updateAppearance('mode', newMode)`. -/
def toggleMode (st : BodyState) : BodyState :=
  let newMode := if getAttr st "mode" = some "default" then "slate" else "default"
  let st := { st with modeRadios := st.modeRadios.map (fun _ => newMode) }
  let cssFile := if newMode ≠ "default" then "/styles/" ++ newMode ++ ".min.css" else ""
  let st := { st with modeHref := cssFile }
  updateAppearance st "mode" newMode

/-- `allThemes.indexOf(currentTheme)`: JS `indexOf` returns `-1` both when
the element is absent and when `currentTheme` is `undefined`. -/
def jsIndexOf (l : List String) (x : Option String) : Int :=
  match x with
  | none => -1
  | some s => if s ∈ l then (l.indexOf s : Int) else -1

/-- `selectNextTheme(direction)`: `newIndex = indexOf(current) + (direction
=== 'Left' ? -1 : +1)`, then `newIndex = (newIndex + length) % length` (JS
`%` is truncated remainder, `Int.tmod`), then
`applyTheme(themeOptions[newIndex].value)`. `none` models the JS crash of
reading `.value` of `undefined` on an out-of-range index. -/
def selectNextTheme (themeOptions : List ThemeOption) (st : BodyState)
    (direction : String) : Option BodyState :=
  let allThemes := themeOptions.map (fun o => o.value)
  let currentTheme := getAttr st "theme"
  let newIndex := jsIndexOf allThemes currentTheme + (if direction = "Left" then -1 else 1)
  let newIndex := Int.tmod (newIndex + allThemes.length) allThemes.length
  if 0 ≤ newIndex then (themeOptions.get? newIndex.toNat).map (fun o => applyTheme st o.value)
  else none

/-- The `do { newTheme = allThemes[floor(random() * length)] } while
(newTheme === currentTheme)` loop of `selectRandomTheme`, with the stream
of `floor(random() * length)` draws made explicit as `picks` and a fuel
bound on the number of iterations: `none` means the loop has not exited
within `fuel` iterations; `some t` is the `newTheme` it exited with
(`t = none` would be JS `undefined` from an out-of-range index). -/
def selectRandomLoop (allThemes : List String) (currentTheme : Option String)
    (picks : Nat → Nat) : Nat → Nat → Option (Option String)
  | _, 0 => none
  | k, fuel + 1 =>
    let newTheme := allThemes.get? (picks k)
    if newTheme = currentTheme then selectRandomLoop allThemes currentTheme picks (k + 1) fuel
    else some newTheme

/-- `selectRandomTheme()`: run the do-while loop, then `applyTheme` on the
theme it exited with. `none` when the loop has not terminated within
`fuel` iterations (or exited with `undefined`). -/
def selectRandomTheme (themeOptions : List ThemeOption) (st : BodyState)
    (picks : Nat → Nat) (fuel : Nat) : Option BodyState :=
  let allThemes := themeOptions.map (fun o => o.value)
  match selectRandomLoop allThemes (getAttr st "theme") picks 0 fuel with
  | some (some t) => some (applyTheme st t)
  | _ => none

/-- Reading `data-mode` after `toggleMode` yields the flipped literal. -/
theorem getAttr_toggleMode (st : BodyState) :
    getAttr (toggleMode st) "mode" =
      some (if getAttr st "mode" = some "default" then "slate" else "default") := by
  simp only [toggleMode, updateAppearance, getAttr]
  by_cases h : assocGet "mode" st.attrs = some "default" <;>
    simp [h, assocGet_assocSet_self]

/-- Reading `data-theme` after `applyTheme` yields the applied theme. -/
theorem getAttr_applyTheme (st : BodyState) (t : String) :
    getAttr (applyTheme st t) "theme" = some t := by
  simp [applyTheme, updateAppearance, getAttr, assocGet_assocSet_self]

/-- Truncated remainder (JS `%`) on two naturals is the natural remainder. -/
theorem tmod_natCast (a n : Nat) :
    Int.tmod (a : Int) (n : Int) = ((a % n : Nat) : Int) := rfl

/-- `jsIndexOf` on a present element is the list index. -/
theorem jsIndexOf_mem {l : List String} {s : String} (h : s ∈ l) :
    jsIndexOf l (some s) = (l.indexOf s : Int) := by
  simp [jsIndexOf, h]

/-- Evaluating `selectNextTheme` once the truncated-remainder index
computation has been settled to a concrete in-range natural `j`. -/
theorem selectNextTheme_index (opts : List ThemeOption) (st : BodyState) (dir : String)
    (j : Nat) (hj : j < opts.length)
    (hidx : Int.tmod (jsIndexOf (opts.map fun o => o.value) (getAttr st "theme") +
        (if dir = "Left" then -1 else 1) + ((opts.map fun o => o.value)).length)
        ((opts.map fun o => o.value)).length = (j : Int)) :
    selectNextTheme opts st dir = some (applyTheme st (opts.get ⟨j, hj⟩).value) := by
  simp only [selectNextTheme]
  rw [hidx]
  have h0 : (0 : Int) ≤ (j : Int) := Int.natCast_nonneg j
  simp only [h0, if_true, Int.toNat_ofNat]
  rw [List.get?_eq_get hj]
  rfl

/-- Wraparound arithmetic of forward-then-backward: stepping to
`(i + 1) % n` and then back by `-1` (as `+ (n - 1)` mod `n`) restores `i`. -/
theorem roundtrip_mod (i n : Nat) (h2 : 2 ≤ n) (hi : i < n) :
    ((i + 1) % n + (n - 1)) % n = i := by
  rcases Nat.lt_or_ge (i + 1) n with h | h
  · rw [Nat.mod_eq_of_lt h]
    have he : i + 1 + (n - 1) = i + n := by omega
    rw [he, Nat.add_mod_right, Nat.mod_eq_of_lt hi]
  · have hin : i + 1 = n := by omega
    rw [hin, Nat.mod_self, Nat.zero_add, Nat.mod_eq_of_lt (by omega)]
    omega

/-- The do-while loop of `selectRandomTheme` never exits when the catalog
is the single theme the body currently wears: every draw picks index 0. -/
theorem selectRandomLoop_singleton (picks : Nat → Nat) (hp : ∀ i, picks i < 1) :
    ∀ fuel k,
      selectRandomLoop ["solarized"] (some "solarized") picks k fuel = none := by
  intro fuel
  induction fuel with
  | zero => intro k; rfl
  | succ n ih =>
    intro k
    have h0 : picks k = 0 := Nat.lt_one_iff.mp (hp k)
    simp [selectRandomLoop, h0, ih]

end ThemePicker

namespace KS

/-- `type Section = 'Appearance' | 'Navigation' | 'Timetable'`. -/
inductive Section : Type
  | Appearance
  | Navigation
  | Timetable
deriving DecidableEq, Repr

/-- `type Shortcut = string | string[]`. -/
inductive Shortcut : Type
  | str (s : String)
  | alts (ss : List String)
deriving DecidableEq, Repr

/-- `type KeyBinding = { key: Shortcut; section: Section; description: string }`.
The field `section` is a Lean keyword, hence that field is primed. -/
structure KeyBinding : Type where
  key : Shortcut
  section' : Section
  description : String
deriving DecidableEq, Repr

/-- Identity tags for the handler closures the component binds, in source
order, plus the Easter-egg handler that navigates to `/tetris`. -/
inductive HandlerTag : Type
  | goToday
  | goTimetable
  | goCourses
  | goVenues
  | goSettings
  | focusSearch
  | showHelp
  | toggleOrientation
  | openDownloadMenu
  | toggleNightMode
  | prevTheme
  | nextTheme
  | tetris
deriving DecidableEq, Repr

/-- The global Mousetrap binding table: each pattern string maps to the
handler most recently bound to it (`Mousetrap.bind` on an already-bound
pattern overwrites the previous handler). -/
abbrev MousetrapTable := List (String × HandlerTag)

/-- The pattern strings a `Shortcut` installs: `Mousetrap.bind` binds a
plain string as one pattern and an array as one pattern per element. -/
def patterns : Shortcut → List String
  | .str s => [s]
  | .alts ss => ss

/-- `Mousetrap.bind(key, action)`. -/
def mtBind (k : Shortcut) (action : HandlerTag) (t : MousetrapTable) : MousetrapTable :=
  (patterns k).foldl (fun acc p => assocSet p action acc) t

/-- `Mousetrap.unbind(key)`. -/
def mtUnbind (k : Shortcut) (t : MousetrapTable) : MousetrapTable :=
  (patterns k).foldl (fun acc p => acc.filter (fun q => q.1 != p)) t

/-- Mousetrap invoking the handler bound to a fully matched pattern (a
single keypress, a modifier chord or a completed key sequence). -/
def dispatchKey (t : MousetrapTable) (pattern : String) : Option HandlerTag :=
  assocGet pattern t

/-- The state the effect manipulates: the `shortcuts` ref of book-kept
bindings and the global Mousetrap table. -/
structure EffectState : Type where
  shortcutsRef : List KeyBinding
  mousetrap : MousetrapTable
deriving DecidableEq, Repr

/-- The `bind` helper inside the effect: push the `KeyBinding` onto the
`shortcuts` ref, then `Mousetrap.bind(key, action)`. -/
def bind (st : EffectState) (key : Shortcut) (sec : Section) (description : String)
    (action : HandlerTag) : EffectState :=
  { shortcutsRef := st.shortcutsRef ++ [⟨key, sec, description⟩],
    mousetrap := mtBind key action st.mousetrap }

/-- The Easter-egg chord sequence pattern. -/
def konamiPattern : String := "up up down down left right left right b a"

/-- The effect body: the twelve `bind` calls in source order, then the
direct `Mousetrap.bind` of the Easter-egg sequence, which bypasses the
`shortcuts` ref bookkeeping. -/
def setupEffect (st : EffectState) : EffectState :=
  let st := bind st (.str "y") .Navigation "Go to today" .goToday
  let st := bind st (.str "t") .Navigation "Go to timetable" .goTimetable
  let st := bind st (.str "m") .Navigation "Go to course finder" .goCourses
  let st := bind st (.str "v") .Navigation "Go to venues page" .goVenues
  let st := bind st (.str "s") .Navigation "Go to settings" .goSettings
  let st := bind st (.str "/") .Navigation "Open global search" .focusSearch
  let st := bind st (.str "?") .Navigation "Show this help" .showHelp
  let st := bind st (.str "o") .Timetable "Switch timetable orientation" .toggleOrientation
  let st := bind st (.str "d") .Timetable "Open download timetable menu" .openDownloadMenu
  let st := bind st (.str "x") .Appearance "Toggle Night Mode" .toggleNightMode
  let st := bind st (.str "z") .Appearance "Previous Theme" .prevTheme
  let st := bind st (.str "c") .Appearance "Next Theme" .nextTheme
  { st with mousetrap := mtBind (.str konamiPattern) .tetris st.mousetrap }

/-- The effect cleanup returned to React:
`shortcuts.current.forEach(({ key }) => Mousetrap.unbind(key))` followed
by `shortcuts.current = []`. -/
def cleanupEffect (st : EffectState) : EffectState :=
  { shortcutsRef := [],
    mousetrap := st.shortcutsRef.foldl (fun acc b => mtUnbind b.key acc) st.mousetrap }

/-- One step of lodash `groupBy` over the accumulated object: if the key
is already present, push the binding onto its group; otherwise create the
group, appended at the end (JS object string-key insertion order). -/
def groupByUpd (acc : List (Section × List KeyBinding)) (b : KeyBinding) :
    List (Section × List KeyBinding) :=
  if (assocGet b.section' acc).isSome then
    acc.map (fun p => if p.1 = b.section' then (p.1, p.2 ++ [b]) else p)
  else acc ++ [(b.section', [b])]

/-- `const sections = groupBy(shortcuts.current, (shortcut) => shortcut.section)`:
lodash `groupBy` iterates the list front to back, building the keyed
groups object. -/
def groupBy (bs : List KeyBinding) : List (Section × List KeyBinding) :=
  bs.foldl groupByUpd []

/-- Spec-side definition for the refinement comparison, following the
spec's words: the section keys in first-seen order. -/
def firstSeen (l : List Section) : List Section :=
  l.foldl (fun acc s => if s ∈ acc then acc else acc ++ [s]) []

/-- Spec-side definition for the refinement comparison, following the
spec's words: `project(bindings)` groups by `section`, pairing each
section, in first-seen order, with the bindings of that section in their
original order. -/
def projectSpec (bs : List KeyBinding) : List (Section × List KeyBinding) :=
  (firstSeen (bs.map (fun b => b.section'))).map
    (fun s => (s, bs.filter (fun b => decide (b.section' = s))))

theorem mem_firstSeenAux (l : List Section) :
    ∀ (acc : List Section) (x : Section),
      (x ∈ l.foldl (fun acc s => if s ∈ acc then acc else acc ++ [s]) acc) ↔
        x ∈ acc ∨ x ∈ l := by
  induction l with
  | nil => intro acc x; simp
  | cons a l ih =>
    intro acc x
    simp only [List.foldl_cons]
    by_cases h : a ∈ acc
    · have h' : x = a → x ∈ acc := fun he => he ▸ h
      rw [if_pos h, ih]
      simp only [List.mem_cons]
      tauto
    · rw [if_neg h, ih]
      simp only [List.mem_append, List.mem_cons, List.mem_singleton]
      tauto

theorem mem_firstSeen {x : Section} {l : List Section} : x ∈ firstSeen l ↔ x ∈ l := by
  rw [firstSeen, mem_firstSeenAux]
  simp

theorem assocGet_map_pair {α β : Type} [DecidableEq α] (keys : List α) (f : α → β)
    (x : α) :
    assocGet x (keys.map fun s => (s, f s)) = if x ∈ keys then some (f x) else none := by
  induction keys with
  | nil => simp [assocGet]
  | cons k ks ih =>
    by_cases h : k = x
    · subst h
      simp [assocGet]
    · have h' : ¬x = k := fun he => h he.symm
      simp [assocGet, h, ih, List.mem_cons, h']

theorem groupBy_snoc (bs : List KeyBinding) (b : KeyBinding) :
    groupBy (bs ++ [b]) = groupByUpd (groupBy bs) b := by
  simp [groupBy, List.foldl_append]

theorem firstSeen_snoc (l : List Section) (x : Section) :
    firstSeen (l ++ [x]) =
      if x ∈ firstSeen l then firstSeen l else firstSeen l ++ [x] := by
  simp [firstSeen, List.foldl_append]

theorem projectSpec_snoc (bs : List KeyBinding) (b : KeyBinding) :
    projectSpec (bs ++ [b]) = groupByUpd (projectSpec bs) b := by
  unfold projectSpec groupByUpd
  rw [List.map_append]
  simp only [List.map_cons, List.map_nil]
  rw [firstSeen_snoc]
  by_cases hmem : b.section' ∈ firstSeen (bs.map fun c => c.section')
  · rw [if_pos hmem]
    rw [show assocGet b.section' ((firstSeen (bs.map fun c => c.section')).map
        (fun s => (s, bs.filter fun c => decide (c.section' = s)))) =
        some (bs.filter fun c => decide (c.section' = b.section')) from by
      rw [assocGet_map_pair, if_pos hmem]]
    simp only [Option.isSome_some, if_true]
    rw [List.map_map]
    apply List.map_congr_left
    intro s _
    by_cases hs : s = b.section'
    · subst hs
      simp [List.filter_append]
    · have hs' : ¬b.section' = s := fun he => hs he.symm
      simp [List.filter_append, hs, hs', Function.comp]
  · rw [if_neg hmem]
    rw [show assocGet b.section' ((firstSeen (bs.map fun c => c.section')).map
        (fun s => (s, bs.filter fun c => decide (c.section' = s)))) = none from by
      rw [assocGet_map_pair, if_neg hmem]]
    simp only [Option.isSome_none, Bool.false_eq_true, if_false]
    rw [List.map_append]
    have hnotin : b.section' ∉ bs.map fun c => c.section' := fun hin =>
      hmem (mem_firstSeen.mpr hin)
    congr 1
    · apply List.map_congr_left
      intro s hs
      have hsmem : s ∈ bs.map fun c => c.section' := mem_firstSeen.mp hs
      have hne : ¬b.section' = s := fun he => hnotin (he ▸ hsmem)
      simp [List.filter_append, hne]
    · have hfil : bs.filter (fun c => decide (c.section' = b.section')) = [] := by
        rw [List.filter_eq_nil_iff]
        intro c hc
        simp only [decide_eq_true_eq]
        intro he
        exact hnotin (he ▸ List.mem_map_of_mem (fun c => c.section') hc)
      simp [List.filter_append, hfil]

/-- JS `\w` word character: `[A-Za-z0-9_]`. -/
def isWordChar (c : Char) : Bool := c.isAlpha || c.isDigit || c == '_'

/-- `shortcut.replace(/\b([a-z])/, (c) => c.toUpperCase())`: uppercase the
first lowercase ASCII letter standing at a word boundary (start of the
string, or preceded by a non-word character); without the `g` flag only
the first match is replaced. `prev` is the character before the current
position. -/
def capFirstAux : Option Char → List Char → List Char
  | _, [] => []
  | prev, c :: rest =>
    if c.isLower && (match prev with | none => true | some p => !(isWordChar p)) then
      c.toUpper :: rest
    else c :: capFirstAux (some c) rest

/-- The capitalized display text of a single key-pattern string. -/
def capitalizeJS (s : String) : String := ⟨capFirstAux none s.data⟩

/-- `renderShortcut`: a single pattern renders as one `<kbd>` node holding
its capitalized key name; an alternatives array maps `renderShortcut` over
its members (each a string, hitting the string branch) and intersperses
the text " or " between the nodes. The model flattens the node tree to
its list of text pieces; being a plain function of its argument it is
deterministic, stateless and mutates nothing. -/
def renderShortcut : Shortcut → List String
  | .str s => [capitalizeJS s]
  | .alts ss => (List.intersperse [" or "] (ss.map (fun s => [capitalizeJS s]))).flatten

/-- Flattening the interspersed singleton nodes gives the texts joined
with " or ". -/
theorem join_intersperse_singleton :
    ∀ ss : List String,
      (List.intersperse [" or "] (ss.map (fun s => [capitalizeJS s]))).flatten =
        List.intersperse " or " (ss.map capitalizeJS)
  | [] => rfl
  | [_] => rfl
  | a :: b :: rest => by
    have ih := join_intersperse_singleton (b :: rest)
    simp only [List.map_cons, List.intersperse_cons₂, List.flatten_cons] at *
    rw [ih]
    rfl

/-- One entry of `data/themes.json` as `notifyThemeChange` reads it. -/
structure ThemeRec : Type where
  id : String
  name : String
deriving DecidableEq, Repr

/-- The payload `openNotification(message, { timeout, overwritable })` is
dispatched with. -/
structure Notification : Type where
  message : String
  timeout : Option Nat
  overwritable : Bool
deriving DecidableEq, Repr

def THEME_NOTIFICATION_TIMEOUT : Nat := 1000

/-- The redux-store slice `notifyThemeChange` reads at call time via
`store.getState().theme.id`. -/
structure StoreState : Type where
  themeId : String
deriving DecidableEq, Repr

/-- `notifyThemeChange()`: fetch the current theme id from the redux store
directly (not a stale captured selector value), look its record up in
`themes.json`, and when found dispatch the notification naming it. -/
def notifyThemeChange (themes : List ThemeRec) (store : StoreState) : Option Notification :=
  (themes.find? (fun t => t.id == store.themeId)).map
    (fun theme => ⟨"Theme switched to " ++ theme.name,
      some THEME_NOTIFICATION_TIMEOUT, true⟩)

/-- The body of the `z`/`c` handlers:
`dispatch(cycleTheme(delta)); notifyThemeChange()`. Redux `dispatch` is
synchronous, so `notifyThemeChange` runs against the already-updated
store; the state transition of the external `cycleTheme` action creator is
abstracted as the function argument `cycleTheme`. -/
def cycleThemeHandler (cycleTheme : Int → StoreState → StoreState) (delta : Int)
    (themes : List ThemeRec) (st : StoreState) : StoreState × Option Notification :=
  let st' := cycleTheme delta st
  (st', notifyThemeChange themes st')

end KS

open ThemePicker
open KS

/-- C1: teardown fails to remove every pattern the owner registered: after
the effect mounts on a fresh state and its cleanup runs, the twelve
book-kept patterns are indeed unbound (shown for `y`), but the ten-key
Easter-egg chord sequence, bound directly without bookkeeping, is still
installed, and a key sequence matching it after teardown still invokes the
unmounted owner's tetris handler. -/
theorem konami_survives_teardown :
    dispatchKey (cleanupEffect (setupEffect ⟨[], []⟩)).mousetrap konamiPattern =
      some HandlerTag.tetris ∧
    dispatchKey (cleanupEffect (setupEffect ⟨[], []⟩)).mousetrap "y" = none ∧
    (cleanupEffect (setupEffect ⟨[], []⟩)).mousetrap ≠ [] := by
  refine ⟨by decide, by decide, by decide⟩

/-- C3 counterexample: two live registrations of the same single-key
pattern `x`: no error is signalled (the source `bind` has no failure path)
and the second binding IS installed, replacing the first at the dispatch
layer, while both rows appear in the shortcuts list. -/
theorem duplicate_bind_counterexample :
    dispatchKey (bind (bind ⟨[], []⟩ (.str "x") .Appearance "first" .goToday)
        (.str "x") .Appearance "second" .goTimetable).mousetrap "x" =
      some HandlerTag.goTimetable ∧
    dispatchKey (bind (bind ⟨[], []⟩ (.str "x") .Appearance "first" .goToday)
        (.str "x") .Appearance "second" .goTimetable).mousetrap "x" ≠
      some HandlerTag.goToday ∧
    (bind (bind ⟨[], []⟩ (.str "x") .Appearance "first" .goToday)
        (.str "x") .Appearance "second" .goTimetable).shortcutsRef.length = 2 := by
  refine ⟨by decide, by decide, by decide⟩

/-- C3 amended: registering a single-key pattern that is already bound
raises no error: the new row is appended to the shortcuts list and the
latest handler replaces the earlier one in the Mousetrap table (last
registration wins); dispatch of every other pattern is unaffected. -/
theorem bind_last_wins (st : EffectState) (p : String) (s1 s2 : Section)
    (d1 d2 : String) (h1 h2 : HandlerTag) :
    dispatchKey (bind (bind st (.str p) s1 d1 h1) (.str p) s2 d2 h2).mousetrap p =
      some h2 ∧
    (bind (bind st (.str p) s1 d1 h1) (.str p) s2 d2 h2).shortcutsRef =
      st.shortcutsRef ++ [⟨.str p, s1, d1⟩, ⟨.str p, s2, d2⟩] ∧
    ∀ q, q ≠ p →
      dispatchKey (bind (bind st (.str p) s1 d1 h1) (.str p) s2 d2 h2).mousetrap q =
        dispatchKey st.mousetrap q := by
  refine ⟨?_, ?_, ?_⟩
  · simp [KS.bind, mtBind, patterns, dispatchKey, assocGet_assocSet_self]
  · simp [KS.bind]
  · intro q hq
    simp [KS.bind, mtBind, patterns, dispatchKey,
      assocGet_assocSet_ne _ _ hq, assocGet_assocSet_ne]

/-- C3 amended witness: two bindings of `q` on an empty state; `q`
dispatches to the second handler and `y` is unaffected. -/
theorem bind_last_wins_witness :
    dispatchKey (bind (bind ⟨[], []⟩ (.str "q") .Navigation "a" .goToday)
        (.str "q") .Navigation "b" .goVenues).mousetrap "q" = some HandlerTag.goVenues ∧
    dispatchKey (bind (bind ⟨[], []⟩ (.str "q") .Navigation "a" .goToday)
        (.str "q") .Navigation "b" .goVenues).mousetrap "y" =
      dispatchKey (⟨[], []⟩ : EffectState).mousetrap "y" :=
  ⟨(bind_last_wins ⟨[], []⟩ "q" .Navigation .Navigation "a" "b" .goToday .goVenues).1,
    (bind_last_wins ⟨[], []⟩ "q" .Navigation .Navigation "a" "b" .goToday .goVenues).2.2
      "y" (by decide)⟩

/-- C8: `toggleMode` flips `mode` between exactly the literals `default`
and `slate`, and toggling twice restores the original mode, for any body
state whose mode is one of the two literals. -/
theorem toggleMode_involution (st : BodyState)
    (h : getAttr st "mode" = some "default" ∨ getAttr st "mode" = some "slate") :
    (getAttr (toggleMode st) "mode" = some "default" ∨
      getAttr (toggleMode st) "mode" = some "slate") ∧
    getAttr (toggleMode (toggleMode st)) "mode" = getAttr st "mode" := by
  rcases h with h | h <;>
    simp [getAttr_toggleMode, h]

/-- C8 witness: toggling twice from `default` on a concrete body state. -/
theorem toggleMode_involution_witness :
    (getAttr ⟨[("mode", "default")], [], [], none, none, ""⟩ "mode" = some "default" ∨
      getAttr ⟨[("mode", "default")], [], [], none, none, ""⟩ "mode" = some "slate") ∧
    ((getAttr (toggleMode ⟨[("mode", "default")], [], [], none, none, ""⟩) "mode" = some "default" ∨
      getAttr (toggleMode ⟨[("mode", "default")], [], [], none, none, ""⟩) "mode" = some "slate") ∧
     getAttr (toggleMode (toggleMode ⟨[("mode", "default")], [], [], none, none, ""⟩)) "mode" =
       getAttr ⟨[("mode", "default")], [], [], none, none, ""⟩ "mode") :=
  ⟨Or.inl (by decide), toggleMode_involution _ (Or.inl (by decide))⟩

/-- C5 counterexample: `applyTheme` applied to the identifier `Z`, absent
from the catalog `[A, B]`, changes the appearance to `Z` and signals no
error, where the claim says the appearance is left unchanged. -/
theorem applyTheme_no_validation_cex :
    ("Z" ∉ ([⟨"A"⟩, ⟨"B"⟩] : List ThemeOption).map (fun o => o.value)) ∧
    getAttr (applyTheme ⟨[("theme", "A"), ("mode", "default")], [], [], none, none, ""⟩ "Z")
        "theme" = some "Z" ∧
    getAttr (applyTheme ⟨[("theme", "A"), ("mode", "default")], [], [], none, none, ""⟩ "Z")
        "theme" ≠
      getAttr ⟨[("theme", "A"), ("mode", "default")], [], [], none, none, ""⟩ "theme" := by
  refine ⟨by decide, by decide, by decide⟩

/-- C5 amended: `applyTheme` performs no catalog-membership validation;
for every identifier, member of the catalog or not, it updates the theme
attribute to the requested identifier and persists it, and no error is
signalled. -/
theorem applyTheme_unconditional (st : BodyState) (t : String) :
    getAttr (applyTheme st t) "theme" = some t ∧
    assocGet "theme" (applyTheme st t).stored = some t := by
  constructor <;> simp [applyTheme, updateAppearance, getAttr, assocGet_assocSet_self]

/-- C2: for the catalog holding the single theme `solarized` with the body
already wearing `solarized`, `selectRandomTheme` never terminates: for
every iteration bound and every stream of valid random draws the do-while
loop is still running, so no theme is ever returned. -/
theorem selectRandomTheme_singleton_hangs (picks : Nat → Nat) (hp : ∀ i, picks i < 1)
    (fuel : Nat) :
    selectRandomTheme [⟨"solarized"⟩] ⟨[("theme", "solarized")], [], [], none, none, ""⟩
      picks fuel = none := by
  have hloop := selectRandomLoop_singleton picks hp fuel 0
  simp only [selectRandomTheme, getAttr, assocGet, List.map]
  simp [hloop]

/-- C2 witness: the constant-zero draw stream, five iterations. -/
theorem selectRandomTheme_singleton_hangs_witness :
    selectRandomTheme [⟨"solarized"⟩] ⟨[("theme", "solarized")], [], [], none, none, ""⟩
      (fun _ => 0) 5 = none :=
  selectRandomTheme_singleton_hangs (fun _ => 0) (fun _ => Nat.zero_lt_one) 5

/-- C4: for every catalog of length at least two with pairwise-distinct
theme values and every current theme that is a member of the catalog,
stepping forward (any direction other than `Left`, here `Right`) and then
backward (`Left`) restores the original theme; the index update is the
`(index + delta + length) % length` computation of `selectNextTheme`. -/
theorem selectNextTheme_roundtrip (opts : List ThemeOption) (st : BodyState)
    (h2 : 2 ≤ opts.length)
    (hnd : (opts.map fun o => o.value).Nodup)
    (cur : String) (hcur : getAttr st "theme" = some cur)
    (hmem : cur ∈ opts.map fun o => o.value) :
    ∃ st1 st2,
      selectNextTheme opts st "Right" = some st1 ∧
      selectNextTheme opts st1 "Left" = some st2 ∧
      getAttr st2 "theme" = getAttr st "theme" := by
  have hlen : (opts.map fun o => o.value).length = opts.length := List.length_map _ _
  have hn0 : 0 < opts.length := by omega
  have hilt' : (opts.map fun o => o.value).indexOf cur < (opts.map fun o => o.value).length :=
    List.indexOf_lt_length.mpr hmem
  have hilt : (opts.map fun o => o.value).indexOf cur < opts.length := by omega
  have hj1lt : ((opts.map fun o => o.value).indexOf cur + 1) % opts.length < opts.length :=
    Nat.mod_lt _ hn0
  have hj1lt' : ((opts.map fun o => o.value).indexOf cur + 1) % opts.length <
      (opts.map fun o => o.value).length := by omega
  have hstep1 : selectNextTheme opts st "Right" = some (applyTheme st
      (opts.get ⟨((opts.map fun o => o.value).indexOf cur + 1) % opts.length, hj1lt⟩).value) := by
    apply selectNextTheme_index
    rw [hcur, jsIndexOf_mem hmem, hlen, if_neg (by decide : ¬("Right" : String) = "Left")]
    have hcast : (((opts.map fun o => o.value).indexOf cur : Int) + 1 + (opts.length : Int)) =
        (((opts.map fun o => o.value).indexOf cur + 1 + opts.length : Nat) : Int) := by
      push_cast; ring
    rw [hcast, tmod_natCast, Nat.add_mod_right]
  have hval1 : (opts.get ⟨((opts.map fun o => o.value).indexOf cur + 1) % opts.length,
      hj1lt⟩).value = (opts.map fun o => o.value).get
        ⟨((opts.map fun o => o.value).indexOf cur + 1) % opts.length, hj1lt'⟩ := by
    simp [List.get_eq_getElem, List.getElem_map]
  have hmem1 : (opts.get ⟨((opts.map fun o => o.value).indexOf cur + 1) % opts.length,
      hj1lt⟩).value ∈ opts.map fun o => o.value := by
    rw [hval1]; exact List.get_mem _ _ _
  have hcur1 : getAttr (applyTheme st
      (opts.get ⟨((opts.map fun o => o.value).indexOf cur + 1) % opts.length, hj1lt⟩).value)
      "theme" = some (opts.get ⟨((opts.map fun o => o.value).indexOf cur + 1) % opts.length,
        hj1lt⟩).value := getAttr_applyTheme _ _
  have hstep2 : selectNextTheme opts (applyTheme st
      (opts.get ⟨((opts.map fun o => o.value).indexOf cur + 1) % opts.length, hj1lt⟩).value)
      "Left" = some (applyTheme (applyTheme st
        (opts.get ⟨((opts.map fun o => o.value).indexOf cur + 1) % opts.length, hj1lt⟩).value)
        (opts.get ⟨(opts.map fun o => o.value).indexOf cur, hilt⟩).value) := by
    apply selectNextTheme_index
    rw [hcur1, jsIndexOf_mem hmem1, hlen, if_pos rfl]
    have hidxof : (opts.map fun o => o.value).indexOf
        (opts.get ⟨((opts.map fun o => o.value).indexOf cur + 1) % opts.length, hj1lt⟩).value =
        ((opts.map fun o => o.value).indexOf cur + 1) % opts.length := by
      rw [hval1, List.get_eq_getElem]
      exact List.indexOf_getElem hnd _ _
    rw [hidxof]
    have hcast : ((((opts.map fun o => o.value).indexOf cur + 1) % opts.length : Nat) : Int) +
        (-1) + (opts.length : Int) =
        ((((opts.map fun o => o.value).indexOf cur + 1) % opts.length +
          (opts.length - 1) : Nat) : Int) := by
      have := hj1lt
      omega
    rw [hcast, tmod_natCast]
    exact congrArg _ (roundtrip_mod _ _ h2 hilt)
  refine ⟨_, _, hstep1, hstep2, ?_⟩
  rw [getAttr_applyTheme, hcur]
  have hfin : (opts.get ⟨(opts.map fun o => o.value).indexOf cur, hilt⟩).value = cur := by
    have h2 : (opts.map fun o => o.value).get
        ⟨(opts.map fun o => o.value).indexOf cur, hilt'⟩ = cur := List.indexOf_get hilt'
    rw [List.get_map] at h2
    exact h2
  rw [hfin]

/-- C4 witness: catalog `[A, B, C]` with current theme `B`; forward gives
`C`, a second forward wraps to `A`, and backward from `A` gives `C`;
forward-then-backward restores `B`. -/
theorem selectNextTheme_roundtrip_witness :
    (2 ≤ ([⟨"A"⟩, ⟨"B"⟩, ⟨"C"⟩] : List ThemeOption).length) ∧
    ((([⟨"A"⟩, ⟨"B"⟩, ⟨"C"⟩] : List ThemeOption).map fun o => o.value).Nodup) ∧
    (Option.map (fun s => getAttr s "theme")
      (selectNextTheme [⟨"A"⟩, ⟨"B"⟩, ⟨"C"⟩] ⟨[("theme", "B")], [], [], none, none, ""⟩
        "Right") = some (some "C")) ∧
    (Option.map (fun s => getAttr s "theme")
      ((selectNextTheme [⟨"A"⟩, ⟨"B"⟩, ⟨"C"⟩] ⟨[("theme", "B")], [], [], none, none, ""⟩
        "Right").bind (fun s => selectNextTheme [⟨"A"⟩, ⟨"B"⟩, ⟨"C"⟩] s "Right")) =
        some (some "A")) ∧
    (Option.map (fun s => getAttr s "theme")
      (selectNextTheme [⟨"A"⟩, ⟨"B"⟩, ⟨"C"⟩] ⟨[("theme", "A")], [], [], none, none, ""⟩
        "Left") = some (some "C")) ∧
    (∃ st1 st2,
      selectNextTheme [⟨"A"⟩, ⟨"B"⟩, ⟨"C"⟩] ⟨[("theme", "B")], [], [], none, none, ""⟩
        "Right" = some st1 ∧
      selectNextTheme [⟨"A"⟩, ⟨"B"⟩, ⟨"C"⟩] st1 "Left" = some st2 ∧
      getAttr st2 "theme" =
        getAttr ⟨[("theme", "B")], [], [], none, none, ""⟩ "theme") :=
  ⟨by decide, by decide, by decide, by decide, by decide,
    selectNextTheme_roundtrip _ _ (by decide) (by decide) "B" (by decide) (by decide)⟩

/-- C10: when the catalog-index lookup of the current theme returns `-1`
(the current theme is not a member), `selectNextTheme` does not fail: the
forward direction applies the theme at index `0` and the backward
direction (`Left`) applies the theme at index `length - 2`. -/
theorem selectNextTheme_missing_current (opts : List ThemeOption) (st : BodyState)
    (h2 : 2 ≤ opts.length)
    (hidx : jsIndexOf (opts.map fun o => o.value) (getAttr st "theme") = -1) :
    selectNextTheme opts st "Right" = some (applyTheme st (opts.get ⟨0, by omega⟩).value) ∧
    selectNextTheme opts st "Left" =
      some (applyTheme st (opts.get ⟨opts.length - 2, by omega⟩).value) := by
  have hlen : (opts.map fun o => o.value).length = opts.length := List.length_map _ _
  constructor
  · apply selectNextTheme_index
    rw [hidx, hlen, if_neg (by decide : ¬("Right" : String) = "Left")]
    have hcast : (-1 : Int) + 1 + (opts.length : Int) = ((opts.length : Nat) : Int) := by omega
    rw [hcast, tmod_natCast, Nat.mod_self]
  · apply selectNextTheme_index
    rw [hidx, hlen, if_pos rfl]
    have hcast : (-1 : Int) + (-1) + (opts.length : Int) =
        ((opts.length - 2 : Nat) : Int) := by omega
    rw [hcast, tmod_natCast, Nat.mod_eq_of_lt (by omega)]

/-- C10 witness: catalog `[A, B, C]` with an unknown current theme `Z`:
forward applies `A` (index 0) and backward applies `B` (index 1 = 3 - 2). -/
theorem selectNextTheme_missing_current_witness :
    (jsIndexOf (([⟨"A"⟩, ⟨"B"⟩, ⟨"C"⟩] : List ThemeOption).map fun o => o.value)
      (getAttr ⟨[("theme", "Z")], [], [], none, none, ""⟩ "theme") = -1) ∧
    (selectNextTheme [⟨"A"⟩, ⟨"B"⟩, ⟨"C"⟩] ⟨[("theme", "Z")], [], [], none, none, ""⟩
        "Right" = some (applyTheme ⟨[("theme", "Z")], [], [], none, none, ""⟩ "A") ∧
      selectNextTheme [⟨"A"⟩, ⟨"B"⟩, ⟨"C"⟩] ⟨[("theme", "Z")], [], [], none, none, ""⟩
        "Left" = some (applyTheme ⟨[("theme", "Z")], [], [], none, none, ""⟩ "B")) :=
  ⟨by decide,
    selectNextTheme_missing_current [⟨"A"⟩, ⟨"B"⟩, ⟨"C"⟩]
      ⟨[("theme", "Z")], [], [], none, none, ""⟩ (by decide) (by decide)⟩

/-- C6: the lodash `groupBy` projection of the bindings list equals the
grouping worded by the spec: sections in first-seen order, each paired
with its bindings in their original order; as a plain function of an
immutable list it is deterministic and mutates nothing. The second
conjunct is the concrete scenario of the spec: bindings `y`
(Navigation), `x` (Appearance), `t` (Navigation) group into
`Navigation ↦ [y, t]`, `Appearance ↦ [x]`. -/
theorem groupBy_eq_projectSpec :
    (∀ bs : List KeyBinding, groupBy bs = projectSpec bs) ∧
    groupBy [⟨.str "y", .Navigation, "dy"⟩, ⟨.str "x", .Appearance, "dx"⟩,
        ⟨.str "t", .Navigation, "dt"⟩] =
      [(Section.Navigation,
          [⟨.str "y", .Navigation, "dy"⟩, ⟨.str "t", .Navigation, "dt"⟩]),
        (Section.Appearance, [⟨.str "x", .Appearance, "dx"⟩])] := by
  constructor
  · intro bs
    induction bs using List.reverseRecOn with
    | nil => rfl
    | append_singleton bs b ih => rw [groupBy_snoc, projectSpec_snoc, ih]
  · decide

/-- C9: `renderShortcut` is a plain (hence pure, stateless) function; a
single key-pattern string beginning with a lowercase letter renders with
that first letter capitalized and the rest unchanged, and an alternatives
list renders as its members' renderings joined with " or "; in
particular `["up", "down"]` renders as "Up or Down". -/
theorem renderShortcut_spec :
    (∀ (c : Char) (cs : List Char), c.isLower = true →
      renderShortcut (.str ⟨c :: cs⟩) = [⟨c.toUpper :: cs⟩]) ∧
    (∀ ss : List String,
      renderShortcut (.alts ss) = List.intersperse " or " (ss.map capitalizeJS)) ∧
    renderShortcut (.alts ["up", "down"]) = ["Up", " or ", "Down"] := by
  refine ⟨?_, ?_, ?_⟩
  · intro c cs h
    simp [renderShortcut, capitalizeJS, capFirstAux, h]
  · intro ss
    exact join_intersperse_singleton ss
  · decide

/-- C9 witness: the pattern "up" renders as "Up". -/
theorem renderShortcut_spec_witness :
    ('u'.isLower = true) ∧
    renderShortcut (.str ⟨'u' :: ['p']⟩) = [⟨'u'.toUpper :: ['p']⟩] :=
  ⟨by decide, renderShortcut_spec.1 'u' ['p'] (by decide)⟩

/-- C7: the notification emitted by the cycle-theme handlers names the
theme read from the shared store state after `cycleTheme` has applied the
change: whenever the post-update theme id resolves to the catalog record
`tNew`, the emitted notification names `tNew`, and it never carries the
name of any theme record with a different name (in particular not the
prior theme's). -/
theorem cycleThemeHandler_fresh (cycleTheme : Int → StoreState → StoreState)
    (delta : Int) (themes : List ThemeRec) (st : StoreState) (tNew : ThemeRec)
    (hfind : themes.find? (fun t => t.id == (cycleTheme delta st).themeId) = some tNew) :
    (cycleThemeHandler cycleTheme delta themes st).2 =
      some ⟨"Theme switched to " ++ tNew.name, some THEME_NOTIFICATION_TIMEOUT, true⟩ ∧
    ∀ other : ThemeRec, other.name ≠ tNew.name →
      (cycleThemeHandler cycleTheme delta themes st).2 ≠
        some ⟨"Theme switched to " ++ other.name, some THEME_NOTIFICATION_TIMEOUT, true⟩ := by
  have h1 : (cycleThemeHandler cycleTheme delta themes st).2 =
      some ⟨"Theme switched to " ++ tNew.name, some THEME_NOTIFICATION_TIMEOUT, true⟩ := by
    simp [cycleThemeHandler, notifyThemeChange, hfind]
  refine ⟨h1, ?_⟩
  intro other hne hcontra
  rw [h1] at hcontra
  have hmsg : "Theme switched to " ++ tNew.name = "Theme switched to " ++ other.name :=
    congrArg Notification.message (Option.some.inj hcontra)
  have hdata := congrArg String.data hmsg
  rw [String.data_append, String.data_append, List.append_right_inj] at hdata
  exact hne (String.ext hdata).symm

/-- C7 witness: a two-theme catalog; cycling moves the store from theme
`a` to theme `b`, and the emitted notification names `Bright` (theme
`b`'s name), not `Ashes`. -/
theorem cycleThemeHandler_fresh_witness :
    (([⟨"a", "Ashes"⟩, ⟨"b", "Bright"⟩] : List ThemeRec).find?
        (fun t => t.id ==
          (((fun _ _ => (⟨"b"⟩ : StoreState)) : Int → StoreState → StoreState) 1
            (⟨"a"⟩ : StoreState)).themeId) = some ⟨"b", "Bright"⟩) ∧
    (cycleThemeHandler (fun _ _ => ⟨"b"⟩) 1 [⟨"a", "Ashes"⟩, ⟨"b", "Bright"⟩]
        ⟨"a"⟩).2 =
      some ⟨"Theme switched to " ++ "Bright", some THEME_NOTIFICATION_TIMEOUT, true⟩ :=
  ⟨by decide,
    (cycleThemeHandler_fresh (fun _ _ => ⟨"b"⟩) 1 [⟨"a", "Ashes"⟩, ⟨"b", "Bright"⟩]
      ⟨"a"⟩ ⟨"b", "Bright"⟩ (by decide)).1⟩

end NUSMods
